import Mathlib

/-!
Verification of `tools/init-sops.py`.

The tool provisions a local SOPS Age key: it obtains a secret key line
(either generated by the external `age-keygen` utility or prompted from the
operator), derives the matching public key, appends a key block to the key
store `keys.txt` (deduplicated by substring match of the secret key line),
and creates a `.sops.yaml` policy file when absent.

File contents and strings are modelled as `List Char` (Python strings are
character sequences).  Python's `str.strip`, `str.splitlines` (with `\n` as
the modelled line terminator), `str.startswith`, `str.endswith` and the
substring test `in` are embedded as executable functions below.  External
`age-keygen` invocations are modelled by oracle records supplying the exit
code and captured output of each call; `os.remove` failure in the cleanup
path is modelled by an explicit outcome value.
-/

/-- Python whitespace test for the ASCII whitespace characters
(`str.strip` in the source is only applied to key material and terminal
input, for which these are the relevant characters). -/
def isPyWs (c : Char) : Bool :=
  c == ' ' || c == '\t' || c == '\n' || c == '\r' || c == '\x0b' || c == '\x0c'

/-- Python `s.startswith(p)`. -/
def pyStartsWith : List Char → List Char → Bool
  | _, [] => true
  | [], _ :: _ => false
  | c :: s, p :: ps => c == p && pyStartsWith s ps

/-- Python `s.endswith(t)`. -/
def pyEndsWith (s t : List Char) : Bool :=
  pyStartsWith s.reverse t.reverse

/-- Python substring test `pat in s` (argument order: `pyContains s pat`). -/
def pyContains : List Char → List Char → Bool
  | [], pat => pat.isEmpty
  | c :: r, pat => pyStartsWith (c :: r) pat || pyContains r pat

/-- Python `s.lstrip()`. -/
def pyLstrip (s : List Char) : List Char :=
  s.dropWhile isPyWs

/-- Python `s.rstrip()`. -/
def pyRstrip (s : List Char) : List Char :=
  (s.reverse.dropWhile isPyWs).reverse

/-- Python `s.strip()`. -/
def pyStrip (s : List Char) : List Char :=
  pyRstrip (pyLstrip s)

/-- Python `s.splitlines()` with `\n` as the line terminator: splits at each
newline and does not produce a final empty line for a trailing newline. -/
def pySplitlines : List Char → List (List Char)
  | [] => []
  | c :: r =>
    if c == '\n' then [] :: pySplitlines r
    else
      match pySplitlines r with
      | [] => [[c]]
      | l :: ls => (c :: l) :: ls

/-- The fixed secret-key marker `"AGE-SECRET-KEY-"` from
`_extract_secret_key_line`. -/
def secretKeyMarker : List Char :=
  "AGE-SECRET-KEY-".data

/-- The `"age1"` public-key marker checked in `_derive_public_key_from_secret`. -/
def agePublicMarker : List Char :=
  "age1".data

/-- The `"# public key: "` comment tag written by `_compose_block_from_secret`. -/
def pubCommentTag : List Char :=
  "# public key: ".data

/-- The `"# created: "` comment tag written by `_compose_block_from_secret`. -/
def createdCommentTag : List Char :=
  "# created: ".data

/-- The line-by-line scan of `_extract_secret_key_line`: the first line whose
stripped form starts with the secret-key marker, returned stripped. -/
def scanLines : List (List Char) → Option (List Char)
  | [] => none
  | l :: ls =>
    let s := pyStrip l
    if pyStartsWith s secretKeyMarker then some s else scanLines ls

/-- `_extract_secret_key_line`: first the whole stripped input is tested for
the marker; otherwise the input is scanned line by line. -/
def extract_secret_key_line (text : List Char) : Option (List Char) :=
  let line := pyStrip text
  if pyStartsWith line secretKeyMarker then some line
  else scanLines (pySplitlines text)

/-- `_compose_block_from_secret`: `"\n".join([created comment, public key
comment, stripped secret line, ""])`, with the timestamp passed in explicitly
(the source reads the current UTC time). -/
def compose_block_from_secret (created secret_key_line public_key : List Char) :
    List Char :=
  createdCommentTag ++ created ++ '\n' ::
    (pubCommentTag ++ public_key ++ '\n' ::
      (pyStrip secret_key_line ++ ['\n']))

/-- Observable outcome of `_append_key_block`: the content written by the
atomic write when a write occurs, and whether the
`"Key already present ... No changes made."` diagnostic was emitted. -/
structure AppendResult where
  newContent : Option (List Char)
  noChangesDiag : Bool
deriving DecidableEq

/-- `_append_key_block`: duplicate check by substring containment of the
secret key line in the existing content (empty existing content is falsy),
then blank-line normalisation of the existing content before appending the
block.  `keysExisting` is the `_read_text` result (`""` for a missing file). -/
def append_key_block (keysExisting block secret_key_line : List Char) :
    AppendResult :=
  if !keysExisting.isEmpty && pyContains keysExisting secret_key_line then
    { newContent := none, noChangesDiag := true }
  else
    let c1 :=
      if !keysExisting.isEmpty && !pyEndsWith keysExisting ['\n'] then
        keysExisting ++ ['\n']
      else keysExisting
    let c2 :=
      if !c1.isEmpty then
        if !pyEndsWith c1 ['\n', '\n'] then c1 ++ ['\n'] else c1
      else c1
    { newContent := some (c2 ++ block), noChangesDiag := false }

/-- The `.sops.yaml` template written by `_ensure_sops_config`. -/
def sopsYamlTemplate (public_key : List Char) : List Char :=
  ("# Managed by tools/init-sops.py\n" ++
   "# Uses Age public key to encrypt files matched by creation_rules.\n" ++
   "creation_rules:\n" ++
   "  - path_regex: kubernetes/secrets/.*\\.(ya?ml)$\n" ++
   "    age:\n" ++
   "      - ").data ++ public_key ++ ['\n']

/-- `_ensure_sops_config`: pair of the write performed (`none` when the file
already exists) and the final file content.  `existing` is the pre-existing
`.sops.yaml` content, `none` when the file is absent. -/
def ensure_sops_config (public_key : List Char) (existing : Option (List Char)) :
    Option (List Char) × List Char :=
  match existing with
  | some c => (none, c)
  | none => (some (sopsYamlTemplate public_key), sopsYamlTemplate public_key)

/-- Errors raised inside the tool (`RuntimeError` wrapping a
`CalledProcessError` or the invalid-public-key check, and `OSError` from
`os.remove`). -/
inductive ToolError where
  | utilityFailed (exitCode : Nat) (stderrText : List Char)
  | invalidPublicKey
  | osError
deriving DecidableEq

/-- Captured behaviour of one `age-keygen -y <file>` invocation: exit code
and captured standard output / standard error. -/
structure DeriveOracle where
  exitCode : Nat
  stdout : List Char
  stderrText : List Char

/-- Captured behaviour of the `age-keygen -o` / `age-keygen -y` pair in
`_generate_key_block_with_age_keygen`: exit codes, the generated key-file
content, and the captured output of the derivation call. -/
structure KeygenOracle where
  genExit : Nat
  genStderr : List Char
  fileContent : List Char
  deriveExit : Nat
  deriveStdout : List Char
  deriveStderr : List Char

/-- Python `try: os.remove(...) except OSError: pass`: whatever the removal
outcome, no exception escapes. -/
def osRemoveGuarded (removeOutcome : Except ToolError Unit) : Except ToolError Unit :=
  match removeOutcome with
  | .error _ => .ok ()
  | .ok _ => .ok ()

/-- Python `try ... finally fin` semantics for an embedded exception monad:
the `finally` block always runs, and an exception it raises replaces (masks)
the body's outcome. -/
def pyTryFinally (body : Except ToolError α) (fin : Except ToolError Unit) :
    Except ToolError α :=
  match fin with
  | .error e => .error e
  | .ok _ => body

/-- `_derive_public_key_from_secret`: writes `secret_key_line.strip() + "\n"`
to a private temporary file, runs `age-keygen -y` on it (modelled by the
`derive` oracle applied to that file content), strips the captured stdout and
checks the `age1` marker; the temporary file is removed in a `finally` block
whose `os.remove` is wrapped in `except OSError: pass`. -/
def derive_public_key_from_secret (derive : List Char → DeriveOracle)
    (removeOutcome : Except ToolError Unit) (secret_key_line : List Char) :
    Except ToolError (List Char) :=
  let o := derive (pyStrip secret_key_line ++ ['\n'])
  let body : Except ToolError (List Char) :=
    if o.exitCode ≠ 0 then .error (.utilityFailed o.exitCode o.stderrText)
    else
      let pub := pyStrip o.stdout
      if pyStartsWith pub agePublicMarker then .ok pub
      else .error .invalidPublicKey
  pyTryFinally body (osRemoveGuarded removeOutcome)

/-- `_generate_key_block_with_age_keygen`: runs `age-keygen -o` then
`age-keygen -y` (both with `check=True`, so a nonzero exit raises), returns
the rstripped key-file content with a final newline, paired with the stripped
stdout of the derivation call.  No `age1` check is performed here. -/
def generate_key_block_with_age_keygen (g : KeygenOracle) :
    Except ToolError (List Char × List Char) :=
  if g.genExit ≠ 0 then .error (.utilityFailed g.genExit g.genStderr)
  else if g.deriveExit ≠ 0 then .error (.utilityFailed g.deriveExit g.deriveStderr)
  else .ok (pyRstrip g.fileContent ++ ['\n'], pyStrip g.deriveStdout)

/-- The two mutually exclusive input modes of `main`. -/
inductive Mode where
  | generate
  | prompt
deriving DecidableEq

/-- The process-external state and oracles one invocation of `main` sees:
whether `age-keygen` is on `PATH`, the current key-store content (`""` for a
missing file), the current `.sops.yaml` content (`none` when absent), the
behaviour of the external utility, the `os.remove` outcome, the operator
input returned by `getpass`/`input`, and the timestamp string. -/
structure Env where
  agePresent : Bool
  existingKeys : List Char
  cfg : Option (List Char)
  gen : KeygenOracle
  derive : List Char → DeriveOracle
  removeOutcome : Except ToolError Unit
  promptInput : List Char
  created : List Char

/-- Observable outcome of one run of `main`: the exit code, the content
written to the key store (`none` when no write happened), the content written
to `.sops.yaml` (`none` when no write happened), whether a fatal diagnostic
was printed to standard error, and whether `age-keygen` was ever executed. -/
structure RunOutcome where
  exitCode : Nat
  keysWrite : Option (List Char)
  cfgWrite : Option (List Char)
  errReported : Bool
  keygenInvoked : Bool
deriving DecidableEq

/-- `main`: `_require_age_keygen` first (exit 127 before anything else when
the utility is absent), then the generate branch (exit 1 on generation
failure or unparsable generated secret) or the prompt branch (exit 2 when no
secret key line is detected in the stripped input, exit 3 when derivation
fails), each followed by `_append_key_block` and `_ensure_sops_config`. -/
def mainRun (mode : Mode) (e : Env) : RunOutcome :=
  if e.agePresent then
    match mode with
    | .generate =>
      match generate_key_block_with_age_keygen e.gen with
      | .error _ => ⟨1, none, none, true, true⟩
      | .ok (block, public_key) =>
        match extract_secret_key_line block with
        | none => ⟨1, none, none, true, true⟩
        | some secret_line =>
          let ar := append_key_block e.existingKeys block secret_line
          ⟨0, ar.newContent, (ensure_sops_config public_key e.cfg).1, false, true⟩
    | .prompt =>
      match extract_secret_key_line (pyStrip e.promptInput) with
      | none => ⟨2, none, none, true, false⟩
      | some secret_line =>
        match derive_public_key_from_secret e.derive e.removeOutcome secret_line with
        | .error _ => ⟨3, none, none, true, true⟩
        | .ok public_key =>
          let block := compose_block_from_secret e.created secret_line public_key
          let ar := append_key_block e.existingKeys block secret_line
          ⟨0, ar.newContent, (ensure_sops_config public_key e.cfg).1, false, true⟩
  else ⟨127, none, none, true, false⟩

/-- The public key recorded in a key block's `"# public key: "` comment:
the remainder of the first line carrying that tag. -/
def recordedPublicKey (b : List Char) : Option (List Char) :=
  match (pySplitlines b).find? (fun l => pyStartsWith l pubCommentTag) with
  | some l => some (l.drop pubCommentTag.length)
  | none => none

/-- Spec-side restatement of the extraction order, following the
specification's words: first the whole trimmed string, then the first trimmed
line beginning with the marker, found over the stripped lines. -/
def extractSpec (text : List Char) : Option (List Char) :=
  if pyStartsWith (pyStrip text) secretKeyMarker then some (pyStrip text)
  else ((pySplitlines text).map pyStrip).find? (fun s => pyStartsWith s secretKeyMarker)

/-- Whether some line of `t` has a stripped form starting with the
secret-key marker. -/
def hasKeyLine (t : List Char) : Bool :=
  (pySplitlines t).any fun l => pyStartsWith (pyStrip l) secretKeyMarker

/-! ### Basic lemmas about the embedded string primitives -/

theorem isEmpty_false_of_ne_nil {l : List Char} (h : l ≠ []) : l.isEmpty = false := by
  cases l with
  | nil => exact absurd rfl h
  | cons c r => rfl

theorem pyStartsWith_iff {s p : List Char} :
    pyStartsWith s p = true ↔ ∃ t, s = p ++ t := by
  induction p generalizing s with
  | nil =>
    simp [pyStartsWith]
  | cons b bs ih =>
    cases s with
    | nil =>
      simp [pyStartsWith]
    | cons c cs =>
      simp only [pyStartsWith, Bool.and_eq_true, beq_iff_eq, ih, List.cons_append]
      constructor
      · rintro ⟨rfl, t, rfl⟩
        exact ⟨t, rfl⟩
      · rintro ⟨t, h⟩
        injection h with h1 h2
        exact ⟨h1, t, h2⟩

theorem pyStartsWith_append_self (p t : List Char) :
    pyStartsWith (p ++ t) p = true :=
  pyStartsWith_iff.mpr ⟨t, rfl⟩

theorem pyStartsWith_append_cases {a x t : List Char}
    (h : pyStartsWith (a ++ x) t = true) :
    pyStartsWith t a = true ∨ pyStartsWith a t = true := by
  induction a generalizing t with
  | nil => exact Or.inl (pyStartsWith_iff.mpr ⟨t, rfl⟩)
  | cons c a' ih =>
    cases t with
    | nil => exact Or.inr rfl
    | cons d t' =>
      simp only [List.cons_append, pyStartsWith, Bool.and_eq_true, beq_iff_eq] at h
      obtain ⟨rfl, h2⟩ := h
      rcases ih h2 with h3 | h3
      · exact Or.inl (by simp [pyStartsWith, h3])
      · exact Or.inr (by simp [pyStartsWith, h3])

theorem pyContains_append_right {b pat : List Char} (a : List Char)
    (h : pyContains b pat = true) : pyContains (a ++ b) pat = true := by
  induction a with
  | nil => simpa using h
  | cons c a' ih =>
    have hne : pyContains (a' ++ b) pat = true := ih
    cases b with
    | nil =>
      simp [pyContains] at h
      subst h
      simp [pyContains, pyStartsWith]
    | cons d b' =>
      simp only [List.cons_append, pyContains]
      cases a' <;> simp_all [pyContains]

theorem pyContains_of_middle {pat : List Char} (a b : List Char) :
    pyContains (a ++ pat ++ b) pat = true := by
  rw [List.append_assoc]
  apply pyContains_append_right
  cases pat with
  | nil => cases b <;> simp [pyContains, pyStartsWith]
  | cons c p' =>
    have h1 : pyStartsWith ((c :: p') ++ b) (c :: p') = true :=
      pyStartsWith_append_self _ _
    rw [List.cons_append] at h1
    show (pyStartsWith (c :: (p' ++ b)) (c :: p') || pyContains (p' ++ b) (c :: p')) = true
    simp [h1]

/-! ### dropWhile / takeWhile support lemmas -/

theorem dropWhile_eq_nil_of_all {p : Char → Bool} {x : List Char}
    (h : ∀ c ∈ x, p c = true) : List.dropWhile p x = [] := by
  induction x with
  | nil => rfl
  | cons c r ih =>
    rw [List.dropWhile_cons, h c (by simp)]
    exact ih fun d hd => h d (by simp [hd])

theorem dropWhile_all_append {p : Char → Bool} {x : List Char} (y : List Char)
    (h : ∀ c ∈ x, p c = true) :
    List.dropWhile p (x ++ y) = List.dropWhile p y := by
  induction x with
  | nil => rfl
  | cons c r ih =>
    rw [List.cons_append, List.dropWhile_cons, h c (by simp)]
    exact ih fun d hd => h d (by simp [hd])

theorem dropWhile_append_cons {p : Char → Bool} {c : Char} (a y : List Char)
    (h : p c = false) :
    List.dropWhile p (a ++ c :: y) = List.dropWhile p a ++ c :: y := by
  induction a with
  | nil => simp [List.dropWhile_cons, h]
  | cons d a' ih =>
    rw [List.cons_append, List.dropWhile_cons, List.dropWhile_cons]
    cases hd : p d
    · simp
    · simpa using ih

theorem dropWhile_head_false {p : Char → Bool} {l r : List Char} {c : Char}
    (h : List.dropWhile p l = c :: r) : p c = false := by
  induction l with
  | nil => simp [List.dropWhile] at h
  | cons d l' ih =>
    rw [List.dropWhile_cons] at h
    cases hd : p d
    · rw [hd] at h
      simp at h
      obtain ⟨rfl, _⟩ := h
      exact hd
    · rw [hd] at h
      simp at h
      exact ih h

theorem all_of_dropWhile_eq_nil {p : Char → Bool} {l : List Char}
    (h : List.dropWhile p l = []) : ∀ c ∈ l, p c = true := by
  induction l with
  | nil => simp
  | cons d l' ih =>
    rw [List.dropWhile_cons] at h
    cases hd : p d
    · rw [hd] at h
      simp at h
    · rw [hd] at h
      intro c hc
      rcases List.mem_cons.mp hc with rfl | hc'
      · exact hd
      · exact ih h c hc'

theorem mem_takeWhile {p : Char → Bool} {l : List Char} {a : Char}
    (h : a ∈ List.takeWhile p l) : p a = true ∧ a ∈ l := by
  induction l with
  | nil => simp [List.takeWhile] at h
  | cons d l' ih =>
    rw [List.takeWhile_cons] at h
    cases hd : p d
    · rw [hd] at h
      simp at h
    · rw [hd] at h
      rcases List.mem_cons.mp h with rfl | hc'
      · exact ⟨hd, by simp⟩
      · obtain ⟨h1, h2⟩ := ih hc'
        exact ⟨h1, by simp [h2]⟩

theorem takeWhile_all_append {p : Char → Bool} {x : List Char} (y : List Char)
    (h : ∀ c ∈ x, p c = true) :
    List.takeWhile p (x ++ y) = x ++ List.takeWhile p y := by
  induction x with
  | nil => rfl
  | cons c r ih =>
    rw [List.cons_append, List.takeWhile_cons, h c (by simp)]
    rw [ih fun d hd => h d (by simp [hd])]
    rfl

/-! ### Lemmas about strip -/

theorem lstrip_cons_ws {c : Char} (x : List Char) (h : isPyWs c = true) :
    pyLstrip (c :: x) = pyLstrip x := by
  simp [pyLstrip, List.dropWhile_cons, h]

theorem lstrip_cons_not_ws {c : Char} (x : List Char) (h : isPyWs c = false) :
    pyLstrip (c :: x) = c :: x := by
  simp [pyLstrip, List.dropWhile_cons, h]

theorem strip_cons_ws {c : Char} (x : List Char) (h : isPyWs c = true) :
    pyStrip (c :: x) = pyStrip x := by
  simp [pyStrip, lstrip_cons_ws x h]

theorem rev_rstrip (y : List Char) :
    (pyRstrip y).reverse = List.dropWhile isPyWs y.reverse := by
  simp [pyRstrip]

theorem rstrip_cons_not_ws {c : Char} (y : List Char) (h : isPyWs c = false) :
    pyRstrip (c :: y) = c :: pyRstrip y := by
  unfold pyRstrip
  rw [List.reverse_cons, dropWhile_append_cons _ _ h, List.reverse_append]
  simp

theorem rstrip_append_ws {w : List Char} (y : List Char)
    (h : ∀ c ∈ w, isPyWs c = true) : pyRstrip (y ++ w) = pyRstrip y := by
  unfold pyRstrip
  rw [List.reverse_append, dropWhile_all_append _ fun c hc => h c (List.mem_reverse.mp hc)]

theorem lstrip_all_nil {z : List Char} (h : ∀ c ∈ z, isPyWs c = true) :
    pyLstrip z = [] :=
  dropWhile_eq_nil_of_all h

theorem lstrip_append_of_ne {z : List Char} (v : List Char) (h : pyLstrip z ≠ []) :
    pyLstrip (z ++ v) = pyLstrip z ++ v := by
  induction z with
  | nil => exact absurd rfl h
  | cons c z' ih =>
    cases hc : isPyWs c
    · rw [List.cons_append, lstrip_cons_not_ws _ hc, lstrip_cons_not_ws _ hc, List.cons_append]
    · rw [List.cons_append, lstrip_cons_ws _ hc, lstrip_cons_ws _ hc] at *
      exact ih h

theorem strip_append_ws {v : List Char} (z : List Char)
    (h : ∀ c ∈ v, isPyWs c = true) : pyStrip (z ++ v) = pyStrip z := by
  by_cases hz : pyLstrip z = []
  · have hzw : ∀ c ∈ z, isPyWs c = true := by
      intro c hc
      exact all_of_dropWhile_eq_nil hz c hc
    have : pyLstrip (z ++ v) = [] := by
      apply lstrip_all_nil
      intro c hc
      rcases List.mem_append.mp hc with h1 | h1
      · exact hzw c h1
      · exact h c h1
    rw [pyStrip, this, pyStrip, hz]
  · rw [pyStrip, lstrip_append_of_ne v hz, pyStrip, rstrip_append_ws _ h]

theorem rstrip_append_of_rev_head {m : List Char} {c : Char} {cr : List Char}
    (ρ : List Char) (hm : m.reverse = c :: cr) (hc : isPyWs c = false) :
    pyRstrip (m ++ ρ) = m ++ pyRstrip ρ := by
  unfold pyRstrip
  rw [List.reverse_append, hm, dropWhile_append_cons _ _ hc, List.reverse_append,
    List.reverse_cons]
  have : (cr.reverse ++ [c]) = m := by
    rw [← List.reverse_cons, ← hm, List.reverse_reverse]
  rw [this]

theorem strip_idem (t : List Char) : pyStrip (pyStrip t) = pyStrip t := by
  by_cases h0 : pyStrip t = []
  · rw [h0]
    rfl
  · have hl : pyLstrip t ≠ [] := by
      intro hc
      exact h0 (by rw [pyStrip, hc]; rfl)
    obtain ⟨d, dr, hld⟩ : ∃ d dr, pyLstrip t = d :: dr := by
      cases hld : pyLstrip t with
      | nil => exact absurd hld hl
      | cons d dr => exact ⟨d, dr, rfl⟩
    have hdw : isPyWs d = false := dropWhile_head_false hld
    have hu : pyStrip t = d :: pyRstrip dr := by
      rw [pyStrip, hld, rstrip_cons_not_ws _ hdw]
    have hlu : pyLstrip (pyStrip t) = pyStrip t := by
      rw [hu]
      exact lstrip_cons_not_ws _ hdw
    have hru : pyRstrip (pyStrip t) = pyStrip t := by
      obtain ⟨c, cr, hrev⟩ : ∃ c cr, (pyStrip t).reverse = c :: cr := by
        cases hrev : (pyStrip t).reverse with
        | nil => exact absurd (by simpa using congrArg List.reverse hrev) h0
        | cons c cr => exact ⟨c, cr, rfl⟩
      have hrd : (pyStrip t).reverse = List.dropWhile isPyWs (pyLstrip t).reverse := by
        rw [pyStrip, rev_rstrip]
      have hcw : isPyWs c = false := dropWhile_head_false (hrd ▸ hrev)
      unfold pyRstrip
      rw [hrev, List.dropWhile_cons, hcw]
      simp only [Bool.false_eq_true, if_false]
      rw [← hrev, List.reverse_reverse]
    rw [pyStrip, hlu, hru]

theorem strip_decomp (t : List Char) :
    ∃ a b, (∀ c ∈ a, isPyWs c = true) ∧ (∀ c ∈ b, isPyWs c = true) ∧
      t = a ++ (pyStrip t ++ b) := by
  refine ⟨List.takeWhile isPyWs t,
    (List.takeWhile isPyWs (pyLstrip t).reverse).reverse, ?_, ?_, ?_⟩
  · intro c hc
    exact (mem_takeWhile hc).1
  · intro c hc
    exact (mem_takeWhile (List.mem_reverse.mp hc)).1
  · conv_lhs => rw [← List.takeWhile_append_dropWhile isPyWs t]
    congr 1
    show pyLstrip t = pyStrip t ++ (List.takeWhile isPyWs (pyLstrip t).reverse).reverse
    conv_lhs => rw [← List.reverse_reverse (pyLstrip t),
      ← List.takeWhile_append_dropWhile isPyWs (pyLstrip t).reverse]
    rw [List.reverse_append]
    congr 1

/-! ### Lemmas about splitlines -/

theorem splitlines_eq_nil {x : List Char} : pySplitlines x = [] ↔ x = [] := by
  constructor
  · intro h
    cases x with
    | nil => rfl
    | cons c r =>
      rw [pySplitlines] at h
      by_cases hc : c == '\n'
      · rw [if_pos hc] at h
        exact absurd h (by simp)
      · rw [if_neg hc] at h
        cases hr : pySplitlines r with
        | nil => rw [hr] at h; exact absurd h (by simp)
        | cons l ls => rw [hr] at h; exact absurd h (by simp)
  · intro h
    subst h
    rfl

theorem splitlines_cons_nl (b : List Char) :
    pySplitlines ('\n' :: b) = [] :: pySplitlines b := by
  rw [pySplitlines, if_pos (by rfl)]

theorem splitlines_append_nl {a : List Char} (b : List Char)
    (ha : ∀ c ∈ a, (c == '\n') = false) :
    pySplitlines (a ++ '\n' :: b) = a :: pySplitlines b := by
  induction a with
  | nil => exact splitlines_cons_nl b
  | cons c a' ih =>
    have hc : (c == '\n') = false := ha c (by simp)
    rw [List.cons_append, pySplitlines, if_neg (by simp [hc])]
    rw [ih fun d hd => ha d (by simp [hd])]

theorem splitlines_no_nl {x : List Char} (hne : x ≠ [])
    (hx : ∀ c ∈ x, (c == '\n') = false) : pySplitlines x = [x] := by
  induction x with
  | nil => exact absurd rfl hne
  | cons c x' ih =>
    have hc : (c == '\n') = false := hx c (by simp)
    rw [pySplitlines, if_neg (by simp [hc])]
    cases hx' : x' with
    | nil => rfl
    | cons d r =>
      rw [← hx']
      rw [ih (by simp [hx']) fun d hd => hx d (by simp [hd])]

theorem split_at_nl {t : List Char} (h : '\n' ∈ t) :
    ∃ t₁ t₂, t = t₁ ++ '\n' :: t₂ ∧ ∀ c ∈ t₁, (c == '\n') = false := by
  set p : Char → Bool := fun c => !(c == '\n') with hp
  have hd : List.dropWhile p t ≠ [] := by
    intro hnil
    have := all_of_dropWhile_eq_nil hnil '\n' h
    simp [hp] at this
  obtain ⟨c, r, hcr⟩ : ∃ c r, List.dropWhile p t = c :: r := by
    cases hcr : List.dropWhile p t with
    | nil => exact absurd hcr hd
    | cons c r => exact ⟨c, r, rfl⟩
  have hc : p c = false := dropWhile_head_false hcr
  have hceq : c = '\n' := by
    simpa [hp] using hc
  refine ⟨List.takeWhile p t, r, ?_, ?_⟩
  · conv_lhs => rw [← List.takeWhile_append_dropWhile p t]
    rw [hcr, hceq]
  · intro d hdm
    have := (mem_takeWhile hdm).1
    simpa [hp] using this

/-! ### Lemmas about hasKeyLine -/

theorem startsWith_nil_marker : pyStartsWith [] secretKeyMarker = false := by decide

theorem strip_nil : pyStrip [] = [] := rfl

theorem hasKeyLine_nil : hasKeyLine [] = false := rfl

theorem hasKeyLine_line_cons {a : List Char} (b : List Char)
    (ha : ∀ c ∈ a, (c == '\n') = false) :
    hasKeyLine (a ++ '\n' :: b) =
      (pyStartsWith (pyStrip a) secretKeyMarker || hasKeyLine b) := by
  rw [hasKeyLine, splitlines_append_nl b ha, List.any_cons]
  rfl

theorem hasKeyLine_single {t : List Char} (hne : t ≠ [])
    (ht : ∀ c ∈ t, (c == '\n') = false) :
    hasKeyLine t = pyStartsWith (pyStrip t) secretKeyMarker := by
  rw [hasKeyLine, splitlines_no_nl hne ht, List.any_cons]
  simp

theorem hasKeyLine_ws_append {w : List Char} (t : List Char)
    (hw : ∀ c ∈ w, isPyWs c = true) : hasKeyLine (w ++ t) = hasKeyLine t := by
  induction w with
  | nil => rfl
  | cons c w' ih =>
    have hcw : isPyWs c = true := hw c (by simp)
    have ih' : hasKeyLine (w' ++ t) = hasKeyLine t :=
      ih fun d hd => hw d (by simp [hd])
    by_cases hc : c == '\n'
    · rw [List.cons_append, hasKeyLine, pySplitlines, if_pos hc, List.any_cons]
      rw [strip_nil, startsWith_nil_marker]
      rw [Bool.false_or]
      exact ih'
    · rw [List.cons_append, hasKeyLine, pySplitlines, if_neg hc]
      cases hls : pySplitlines (w' ++ t) with
      | nil =>
        have hwt : w' ++ t = [] := splitlines_eq_nil.mp hls
        have ht0 : t = [] := (List.append_eq_nil.mp hwt).2
        rw [List.any_cons, List.any_nil]
        rw [strip_cons_ws _ hcw, strip_nil, startsWith_nil_marker]
        rw [ht0, hasKeyLine_nil]
        rfl
      | cons l ls =>
        rw [List.any_cons]
        rw [strip_cons_ws _ hcw]
        have : (pySplitlines (w' ++ t)).any
            (fun l => pyStartsWith (pyStrip l) secretKeyMarker) = hasKeyLine t := ih'
        rw [hls, List.any_cons] at this
        rw [this]

theorem hasKeyLine_all_ws {w : List Char} (hw : ∀ c ∈ w, isPyWs c = true) :
    hasKeyLine w = false := by
  have := hasKeyLine_ws_append [] hw
  rw [List.append_nil, hasKeyLine_nil] at this
  exact this

theorem hasKeyLine_append_ws_aux :
    ∀ (n : Nat) (t w : List Char), t.length ≤ n → (∀ c ∈ w, isPyWs c = true) →
      hasKeyLine (t ++ w) = hasKeyLine t := by
  intro n
  induction n with
  | zero =>
    intro t w ht hw
    have ht0 : t = [] := List.eq_nil_of_length_eq_zero (Nat.le_zero.mp ht)
    subst ht0
    rw [List.nil_append, hasKeyLine_nil]
    exact hasKeyLine_all_ws hw
  | succ n ih =>
    intro t w ht hw
    by_cases hm : '\n' ∈ t
    · obtain ⟨t₁, t₂, hteq, ht₁⟩ := split_at_nl hm
      have hlen : t₂.length ≤ n := by
        have : t.length = t₁.length + (t₂.length + 1) := by
          rw [hteq]
          simp [List.length_append]
        omega
      rw [hteq, List.append_assoc, List.cons_append]
      rw [hasKeyLine_line_cons _ ht₁, hasKeyLine_line_cons _ ht₁]
      rw [ih t₂ w hlen hw]
    · by_cases ht0 : t = []
      · subst ht0
        rw [List.nil_append, hasKeyLine_nil]
        exact hasKeyLine_all_ws hw
      · have htnl : ∀ c ∈ t, (c == '\n') = false := by
          intro c hc
          have : c ≠ '\n' := fun hceq => hm (hceq ▸ hc)
          simp [this]
        by_cases hwn : '\n' ∈ w
        · obtain ⟨w₁, w₂, hweq, hw₁⟩ := split_at_nl hwn
          have hw₁ws : ∀ c ∈ w₁, isPyWs c = true := by
            intro c hc
            exact hw c (by rw [hweq]; exact List.mem_append.mpr (Or.inl hc))
          have hw₂ws : ∀ c ∈ w₂, isPyWs c = true := by
            intro c hc
            exact hw c (by rw [hweq]; exact List.mem_append.mpr (Or.inr (by simp [hc])))
          rw [hweq, ← List.append_assoc]
          have htb : ∀ c ∈ t ++ w₁, (c == '\n') = false := by
            intro c hc
            rcases List.mem_append.mp hc with h1 | h1
            · exact htnl c h1
            · exact hw₁ c h1
          rw [hasKeyLine_line_cons _ htb]
          rw [hasKeyLine_all_ws hw₂ws, Bool.or_false]
          rw [strip_append_ws t hw₁ws]
          rw [hasKeyLine_single ht0 htnl]
        · have htwnl : ∀ c ∈ t ++ w, (c == '\n') = false := by
            intro c hc
            rcases List.mem_append.mp hc with h1 | h1
            · exact htnl c h1
            · have : c ≠ '\n' := fun hceq => hwn (hceq ▸ h1)
              simp [this]
          have htwne : t ++ w ≠ [] := by
            intro hc
            exact ht0 (List.append_eq_nil.mp hc).1
          rw [hasKeyLine_single htwne htwnl, hasKeyLine_single ht0 htnl]
          rw [strip_append_ws t hw]

theorem hasKeyLine_append_ws {w : List Char} (t : List Char)
    (hw : ∀ c ∈ w, isPyWs c = true) : hasKeyLine (t ++ w) = hasKeyLine t :=
  hasKeyLine_append_ws_aux t.length t w (Nat.le_refl _) hw

theorem hasKeyLine_strip (t : List Char) : hasKeyLine (pyStrip t) = hasKeyLine t := by
  obtain ⟨a, b, ha, hb, hdec⟩ := strip_decomp t
  conv_rhs => rw [hdec]
  rw [hasKeyLine_ws_append _ ha, hasKeyLine_append_ws _ hb]

/-! ### Marker facts and the main extraction lemmas -/

theorem marker_cons : secretKeyMarker = 'A' :: "GE-SECRET-KEY-".data := by decide

theorem marker_rev : secretKeyMarker.reverse = "-YEK-TERCES-EGA".data := by decide

theorem strip_marker_append (ρ : List Char) :
    pyStartsWith (pyStrip (secretKeyMarker ++ ρ)) secretKeyMarker = true := by
  have h1 : pyLstrip (secretKeyMarker ++ ρ) = secretKeyMarker ++ ρ := by
    rw [marker_cons, List.cons_append]
    exact lstrip_cons_not_ws _ (by decide)
  have h2 : pyRstrip (secretKeyMarker ++ ρ) = secretKeyMarker ++ pyRstrip ρ :=
    rstrip_append_of_rev_head ρ (by rw [marker_rev]) (by decide)
  rw [pyStrip, h1, h2]
  exact pyStartsWith_append_self _ _

theorem hasKeyLine_of_strip_startsWith {t : List Char}
    (h : pyStartsWith (pyStrip t) secretKeyMarker = true) : hasKeyLine t = true := by
  rw [← hasKeyLine_strip]
  obtain ⟨ρ, hρ⟩ := pyStartsWith_iff.mp h
  by_cases hm : '\n' ∈ pyStrip t
  · obtain ⟨m₁, m₂, hme, hm₁⟩ := split_at_nl hm
    rw [hme, hasKeyLine_line_cons _ hm₁]
    have hsw : pyStartsWith (m₁ ++ '\n' :: m₂) secretKeyMarker = true := hme ▸ h
    have hm₁sw : pyStartsWith m₁ secretKeyMarker = true := by
      rcases pyStartsWith_append_cases hsw with hc | hc
      · obtain ⟨δ, hδ⟩ := pyStartsWith_iff.mp hc
        cases δ with
        | nil =>
          rw [List.append_nil] at hδ
          rw [← hδ]
          have := pyStartsWith_append_self secretKeyMarker []
          rwa [List.append_nil] at this
        | cons d δ' =>
          exfalso
          have heq2 : m₁ ++ '\n' :: m₂ = m₁ ++ (d :: (δ' ++ ρ)) := by
            rw [← hme, hρ, hδ]
            simp [List.append_assoc]
          have hinj : '\n' :: m₂ = d :: (δ' ++ ρ) := List.append_cancel_left heq2
          have hd : d = '\n' := by
            injection hinj with h1 h2
            exact h1.symm
          have : '\n' ∈ secretKeyMarker := by
            rw [hδ, hd]
            exact List.mem_append.mpr (Or.inr (by simp))
          exact absurd this (by decide)
      · exact hc
    obtain ⟨ρ₁, hρ₁⟩ := pyStartsWith_iff.mp hm₁sw
    rw [hρ₁, strip_marker_append ρ₁]
    simp
  · have hne : pyStrip t ≠ [] := by
      rw [hρ]
      intro hc
      have := (List.append_eq_nil.mp hc).1
      exact absurd this (by decide)
    have hnl : ∀ c ∈ pyStrip t, (c == '\n') = false := by
      intro c hc
      have : c ≠ '\n' := fun he => hm (he ▸ hc)
      simp [this]
    rw [hasKeyLine_single hne hnl, strip_idem]
    exact h

theorem scanLines_none_iff {ls : List (List Char)} :
    scanLines ls = none ↔
      ls.any (fun l => pyStartsWith (pyStrip l) secretKeyMarker) = false := by
  induction ls with
  | nil => simp [scanLines]
  | cons l ls ih =>
    simp only [scanLines, List.any_cons]
    cases hp : pyStartsWith (pyStrip l) secretKeyMarker <;> simp [hp, ih]

theorem scanLines_some_props :
    ∀ {ls : List (List Char)} {l : List Char}, scanLines ls = some l →
      pyStrip l = l ∧ pyStartsWith l secretKeyMarker = true := by
  intro ls
  induction ls with
  | nil =>
    intro l h
    simp [scanLines] at h
  | cons a ls ih =>
    intro l h
    simp only [scanLines] at h
    by_cases hp : pyStartsWith (pyStrip a) secretKeyMarker = true
    · simp only [hp, if_true] at h
      injection h with h1
      rw [← h1]
      exact ⟨strip_idem a, hp⟩
    · simp only [hp, if_false] at h
      exact ih h

theorem scanLines_eq_find (ls : List (List Char)) :
    scanLines ls = (ls.map pyStrip).find? fun s => pyStartsWith s secretKeyMarker := by
  induction ls with
  | nil => rfl
  | cons a ls ih =>
    simp only [scanLines, List.map_cons, List.find?]
    cases hp : pyStartsWith (pyStrip a) secretKeyMarker <;> simp [hp, ih]

theorem extract_eq_none_of_hasKeyLine_false {t : List Char}
    (h : hasKeyLine t = false) : extract_secret_key_line t = none := by
  have hs : pyStartsWith (pyStrip t) secretKeyMarker = false := by
    cases hc : pyStartsWith (pyStrip t) secretKeyMarker
    · rfl
    · rw [hasKeyLine_of_strip_startsWith hc] at h
      exact absurd h (by simp)
  simp only [extract_secret_key_line, hs, Bool.false_eq_true, if_false]
  exact scanLines_none_iff.mpr h

theorem extract_some_props {t l : List Char}
    (h : extract_secret_key_line t = some l) :
    pyStrip l = l ∧ pyStartsWith l secretKeyMarker = true := by
  simp only [extract_secret_key_line] at h
  by_cases hs : pyStartsWith (pyStrip t) secretKeyMarker = true
  · simp only [hs, if_true] at h
    injection h with h1
    rw [← h1]
    exact ⟨strip_idem t, hs⟩
  · simp only [hs, if_false] at h
    exact scanLines_some_props h

/-! ### Lemmas about endsWith and the append step -/

theorem endsWith_append_self (p s : List Char) : pyEndsWith (p ++ s) s = true := by
  unfold pyEndsWith
  rw [List.reverse_append]
  exact pyStartsWith_append_self _ _

theorem endsWith_nl_eq_false {p : List Char} (h : p.getLast? ≠ some '\n') :
    pyEndsWith p ['\n'] = false := by
  unfold pyEndsWith
  cases hrev : p.reverse with
  | nil => rfl
  | cons c cr =>
    have hc : c ≠ '\n' := by
      intro hceq
      apply h
      rw [← List.head?_reverse, hrev, hceq]
      rfl
    show pyStartsWith (c :: cr) ['\n'] = false
    simp [pyStartsWith, hc]

theorem endsWith_snoc_nl_two {p : List Char} :
    pyEndsWith (p ++ ['\n']) ['\n', '\n'] = pyEndsWith p ['\n'] := by
  unfold pyEndsWith
  rw [List.reverse_append]
  show pyStartsWith ('\n' :: p.reverse) ['\n', '\n'] = pyStartsWith p.reverse ['\n']
  simp [pyStartsWith]

theorem append_ne_nil_right {a b : List Char} (h : b ≠ []) : a ++ b ≠ [] := by
  intro hc
  exact h (List.append_eq_nil.mp hc).2

/-! ### Lemmas about composed key blocks -/

theorem startsWith_marker_hash (ξ : List Char) :
    pyStartsWith ('#' :: ξ) secretKeyMarker = false := by
  rw [marker_cons]
  show ('#' == 'A' && pyStartsWith ξ "GE-SECRET-KEY-".data) = false
  rfl

theorem strip_cons_hash (x : List Char) : pyStrip ('#' :: x) = '#' :: pyRstrip x := by
  rw [pyStrip, lstrip_cons_not_ws _ (by decide), rstrip_cons_not_ws _ (by decide)]

theorem splitlines_compose {created secret pub : List Char}
    (hc : ∀ c ∈ created, (c == '\n') = false)
    (hp : ∀ c ∈ pub, (c == '\n') = false)
    (hs : ∀ c ∈ pyStrip secret, (c == '\n') = false) :
    pySplitlines (compose_block_from_secret created secret pub) =
      [createdCommentTag ++ created, pubCommentTag ++ pub, pyStrip secret] := by
  unfold compose_block_from_secret
  have hctag : ∀ c ∈ createdCommentTag, (c == '\n') = false := by decide
  have hptag : ∀ c ∈ pubCommentTag, (c == '\n') = false := by decide
  have hct : ∀ c ∈ createdCommentTag ++ created, (c == '\n') = false := by
    intro c hmem
    rcases List.mem_append.mp hmem with h1 | h1
    · exact hctag c h1
    · exact hc c h1
  have hpt : ∀ c ∈ pubCommentTag ++ pub, (c == '\n') = false := by
    intro c hmem
    rcases List.mem_append.mp hmem with h1 | h1
    · exact hptag c h1
    · exact hp c h1
  rw [splitlines_append_nl _ hct, splitlines_append_nl _ hpt]
  rw [show pyStrip secret ++ ['\n'] = pyStrip secret ++ '\n' :: [] from rfl]
  rw [splitlines_append_nl _ hs]
  rfl

theorem strip_compose_startsWith_hash (created secret pub : List Char) :
    pyStartsWith (pyStrip (compose_block_from_secret created secret pub))
      secretKeyMarker = false := by
  unfold compose_block_from_secret
  rw [show createdCommentTag = '#' :: " created: ".data from by decide]
  rw [List.cons_append, List.cons_append]
  rw [strip_cons_hash]
  exact startsWith_marker_hash _

theorem extract_compose {created secret pub : List Char}
    (hc : ∀ c ∈ created, (c == '\n') = false)
    (hp : ∀ c ∈ pub, (c == '\n') = false)
    (hs : ∀ c ∈ pyStrip secret, (c == '\n') = false)
    (hstart : pyStartsWith (pyStrip secret) secretKeyMarker = true) :
    extract_secret_key_line (compose_block_from_secret created secret pub) =
      some (pyStrip secret) := by
  simp only [extract_secret_key_line, strip_compose_startsWith_hash created secret pub,
    Bool.false_eq_true, if_false]
  rw [splitlines_compose hc hp hs]
  have h1 : pyStartsWith (pyStrip (createdCommentTag ++ created)) secretKeyMarker = false := by
    rw [show createdCommentTag = '#' :: " created: ".data from by decide,
      List.cons_append, strip_cons_hash]
    exact startsWith_marker_hash _
  have h2 : pyStartsWith (pyStrip (pubCommentTag ++ pub)) secretKeyMarker = false := by
    rw [show pubCommentTag = '#' :: " public key: ".data from by decide,
      List.cons_append, strip_cons_hash]
    exact startsWith_marker_hash _
  simp only [scanLines, h1, Bool.false_eq_true, if_false, h2]
  rw [strip_idem]
  simp [hstart]

theorem recordedPublicKey_compose {created secret pub : List Char}
    (hc : ∀ c ∈ created, (c == '\n') = false)
    (hp : ∀ c ∈ pub, (c == '\n') = false)
    (hs : ∀ c ∈ pyStrip secret, (c == '\n') = false) :
    recordedPublicKey (compose_block_from_secret created secret pub) = some pub := by
  unfold recordedPublicKey
  rw [splitlines_compose hc hp hs]
  have h1 : pyStartsWith (createdCommentTag ++ created) pubCommentTag = false := by
    cases hcase : pyStartsWith (createdCommentTag ++ created) pubCommentTag
    · rfl
    · rcases pyStartsWith_append_cases hcase with hx | hx
      · exact absurd hx (by decide)
      · exact absurd hx (by decide)
  have h2 : pyStartsWith (pubCommentTag ++ pub) pubCommentTag = true :=
    pyStartsWith_append_self _ _
  simp only [List.find?, h1, h2]
  rw [List.drop_left]

/-! ### Additional helper lemmas for the claim theorems -/

theorem strip_rev_head {x : List Char} (h : pyStrip x ≠ []) :
    ∃ c cr, (pyStrip x).reverse = c :: cr ∧ isPyWs c = false := by
  obtain ⟨c, cr, hrev⟩ : ∃ c cr, (pyStrip x).reverse = c :: cr := by
    cases hrev : (pyStrip x).reverse with
    | nil => exact absurd (by simpa using congrArg List.reverse hrev) h
    | cons c cr => exact ⟨c, cr, rfl⟩
  have hrd : (pyStrip x).reverse = List.dropWhile isPyWs (pyLstrip x).reverse := by
    rw [pyStrip, rev_rstrip]
  exact ⟨c, cr, hrev, dropWhile_head_false (hrd ▸ hrev)⟩

theorem append_key_block_newContent_some {existing block secret r : List Char}
    (h : (append_key_block existing block secret).newContent = some r) :
    ∃ q, r = q ++ block := by
  unfold append_key_block at h
  by_cases hc : (!existing.isEmpty && pyContains existing secret) = true
  · rw [if_pos hc] at h
    simp at h
  · rw [if_neg hc] at h
    exact ⟨_, (Option.some.inj h).symm⟩

/-! ### Claim theorems -/

/-- C10: the duplicate check of `_append_key_block` is a plain substring
containment test: whenever the secret key line occurs anywhere inside the
non-empty existing key-store content — also inside a comment line or embedded
in a longer line — the append is suppressed, nothing is written, and the
"no changes" diagnostic is emitted. -/
theorem append_suppressed_by_any_substring
    (existing block secret : List Char) (hne : existing ≠ [])
    (hin : pyContains existing secret = true) :
    append_key_block existing block secret =
      { newContent := none, noChangesDiag := true } := by
  simp [append_key_block, isEmpty_false_of_ne_nil hne, hin]

/-- C10 witness: a secret key line embedded inside a comment line suppresses
the append. -/
theorem append_suppressed_by_any_substring_witness :
    append_key_block "# note AGE-SECRET-KEY-1ABC here\n".data "B\n".data
      "AGE-SECRET-KEY-1ABC".data =
      { newContent := none, noChangesDiag := true } :=
  append_suppressed_by_any_substring _ _ _ (by decide) (by decide)

/-- C1: running `_append_key_block` a second time with the same secret key
line is idempotent: if the first run wrote content `r` (and the block
contains the non-empty secret key line, as every composed block does), the
second run on `r` performs no write and emits the "no changes" diagnostic. -/
theorem append_second_run_noop
    (existing block secret r : List Char) (hsec : secret ≠ [])
    (hin : pyContains block secret = true)
    (h1 : (append_key_block existing block secret).newContent = some r) :
    append_key_block r block secret =
      { newContent := none, noChangesDiag := true } := by
  obtain ⟨q, rfl⟩ := append_key_block_newContent_some h1
  have hbne : block ≠ [] := by
    intro hb
    rw [hb] at hin
    rw [show pyContains [] secret = secret.isEmpty from rfl] at hin
    exact hsec (by simpa using hin)
  have hrne : q ++ block ≠ [] := append_ne_nil_right hbne
  have hcont : pyContains (q ++ block) secret = true := pyContains_append_right q hin
  simp [append_key_block, isEmpty_false_of_ne_nil hrne, hcont]

/-- C1 witness: installing a composed block into an empty key store and then
running the append again on the written content is a diagnosed no-op. -/
theorem append_second_run_noop_witness :
    append_key_block
      (compose_block_from_secret "2025-01-01T00:00:00Z".data
        "AGE-SECRET-KEY-1TEST".data "age1abc".data)
      (compose_block_from_secret "2025-01-01T00:00:00Z".data
        "AGE-SECRET-KEY-1TEST".data "age1abc".data)
      "AGE-SECRET-KEY-1TEST".data =
      { newContent := none, noChangesDiag := true } :=
  append_second_run_noop [] _ _ _ (by decide) (by decide) (by decide)

/-- C8: in `_derive_public_key_from_secret` the cleanup of the private
temporary file runs on every exit path of the embedded `try/finally` and can
neither raise nor mask the body's outcome: the guarded removal always
succeeds, the `finally` wrapper returns the body's result unchanged for every
body outcome (success, prefix-validation failure, utility failure), and the
function's result does not depend on the removal outcome. -/
theorem derive_cleanup_never_raises_or_masks (derive : List Char → DeriveOracle)
    (r₁ r₂ : Except ToolError Unit) (s : List Char) :
    derive_public_key_from_secret derive r₁ s = derive_public_key_from_secret derive r₂ s ∧
    osRemoveGuarded r₁ = .ok () ∧
    ∀ body : Except ToolError (List Char), pyTryFinally body (osRemoveGuarded r₁) = body := by
  refine ⟨?_, ?_, ?_⟩
  · unfold derive_public_key_from_secret
    cases r₁ <;> cases r₂ <;> rfl
  · cases r₁ <;> rfl
  · intro body
    cases r₁ <;> rfl

/-- C6: when `age-keygen` is absent from the execution path, `main` exits
with code 127, reports a diagnostic to standard error, never executes the
utility, and touches neither the key store nor the policy file. -/
theorem main_exits_127_when_utility_absent (mode : Mode) (e : Env)
    (h : e.agePresent = false) :
    mainRun mode e =
      { exitCode := 127, keysWrite := none, cfgWrite := none,
        errReported := true, keygenInvoked := false } := by
  simp [mainRun, h]

/-- C6 witness. -/
theorem main_exits_127_when_utility_absent_witness :
    mainRun .generate
      ⟨false, [], none, ⟨0, [], [], 0, [], []⟩, fun _ => ⟨0, [], []⟩, .ok (), [], []⟩ =
      { exitCode := 127, keysWrite := none, cfgWrite := none,
        errReported := true, keygenInvoked := false } :=
  main_exits_127_when_utility_absent .generate _ rfl

/-- C2 (amended): in generate mode the tool fails with exit code 1 and
reports the error whenever either `age-keygen` invocation exits non-zero, and
on such failure neither the key store nor the policy file is written.  (The
`age1` prefix of the derived public key is not checked in generate mode; see
the counterexample.) -/
theorem generate_fails_on_nonzero_exit (e : Env) (hage : e.agePresent = true)
    (hfail : e.gen.genExit ≠ 0 ∨ e.gen.deriveExit ≠ 0) :
    mainRun .generate e =
      { exitCode := 1, keysWrite := none, cfgWrite := none,
        errReported := true, keygenInvoked := true } := by
  have hg : ∃ err, generate_key_block_with_age_keygen e.gen = .error err := by
    unfold generate_key_block_with_age_keygen
    rcases hfail with hf | hf
    · rw [if_pos hf]
      exact ⟨_, rfl⟩
    · by_cases hge : e.gen.genExit ≠ 0
      · rw [if_pos hge]
        exact ⟨_, rfl⟩
      · rw [if_neg hge, if_pos hf]
        exact ⟨_, rfl⟩
  obtain ⟨err, hg⟩ := hg
  simp [mainRun, hage, hg]

/-- C2 witness: a failing `age-keygen -o` yields exit code 1 and no writes. -/
theorem generate_fails_on_nonzero_exit_witness :
    mainRun .generate
      ⟨true, [], none, ⟨1, "boom".data, [], 0, [], []⟩, fun _ => ⟨0, [], []⟩,
        .ok (), [], []⟩ =
      { exitCode := 1, keysWrite := none, cfgWrite := none,
        errReported := true, keygenInvoked := true } :=
  generate_fails_on_nonzero_exit _ rfl (Or.inl (by decide))

/-- C2 counterexample: with both utility invocations succeeding but a derived
public key that does not start with `age1`, generate mode does not fail: it
exits 0 and writes the key store (and the policy file), refuting the claim
that a wrong-prefix public key causes exit code 1 with no writes. -/
theorem generate_ignores_bad_prefix_counterexample :
    pyStartsWith
      (pyStrip ("notage\n".data)) agePublicMarker = false ∧
    (mainRun .generate
      ⟨true, [], none, ⟨0, [], "AGE-SECRET-KEY-1TESTKEY\n".data, 0, "notage\n".data, []⟩,
        fun _ => ⟨0, [], []⟩, .ok (), [], []⟩).exitCode = 0 ∧
    (mainRun .generate
      ⟨true, [], none, ⟨0, [], "AGE-SECRET-KEY-1TESTKEY\n".data, 0, "notage\n".data, []⟩,
        fun _ => ⟨0, [], []⟩, .ok (), [], []⟩).keysWrite ≠ none := by
  decide

/-- C4: policy-file creation is exactly-once: when `.sops.yaml` already
exists with arbitrary content, `_ensure_sops_config` returns it byte-identical
and performs no write, and no `main` path writes the policy file. -/
theorem sops_config_untouched_when_present (pub c : List Char) (mode : Mode)
    (e : Env) (h : e.cfg = some c) :
    ensure_sops_config pub (some c) = (none, c) ∧ (mainRun mode e).cfgWrite = none := by
  refine ⟨rfl, ?_⟩
  cases hage : e.agePresent
  · simp [mainRun, hage]
  · cases mode with
    | generate =>
      simp only [mainRun, hage, if_true]
      cases hg : generate_key_block_with_age_keygen e.gen with
      | error err => rfl
      | ok pr =>
        obtain ⟨block, pk⟩ := pr
        cases hx : extract_secret_key_line block with
        | none => simp [hx]
        | some sl => simp [hx, ensure_sops_config, h]
    | prompt =>
      simp only [mainRun, hage, if_true]
      cases hx : extract_secret_key_line (pyStrip e.promptInput) with
      | none => rfl
      | some sl =>
        cases hd : derive_public_key_from_secret e.derive e.removeOutcome sl with
        | error err => simp [hd]
        | ok pk => simp [hd, ensure_sops_config, h]

/-- C4 witness: a run in prompt mode with an existing policy file leaves it
unwritten. -/
theorem sops_config_untouched_when_present_witness :
    ensure_sops_config "age1p".data (some "old content".data) =
      (none, "old content".data) ∧
    (mainRun .prompt
      ⟨true, [], some "old content".data, ⟨0, [], [], 0, [], []⟩,
        fun _ => ⟨0, "age1pub\n".data, []⟩, .ok (), "AGE-SECRET-KEY-1W".data,
        "2025".data⟩).cfgWrite = none :=
  sops_config_untouched_when_present "age1p".data "old content".data .prompt _ rfl

/-- C5: in prompt mode, for every operator input none of whose lines starts
(after stripping) with the secret-key marker, the program exits with code 2
and neither the key store nor the policy file is created or modified. -/
theorem prompt_exits_2_without_key_line (e : Env) (hage : e.agePresent = true)
    (hnokey : ∀ l ∈ pySplitlines e.promptInput,
      pyStartsWith (pyStrip l) secretKeyMarker = false) :
    mainRun .prompt e =
      { exitCode := 2, keysWrite := none, cfgWrite := none,
        errReported := true, keygenInvoked := false } := by
  have hkl : hasKeyLine e.promptInput = false := by
    rw [hasKeyLine, List.any_eq_false]
    intro x hx
    simp [hnokey x hx]
  have hkl2 : hasKeyLine (pyStrip e.promptInput) = false := by
    rw [hasKeyLine_strip]
    exact hkl
  have hx : extract_secret_key_line (pyStrip e.promptInput) = none :=
    extract_eq_none_of_hasKeyLine_false hkl2
  simp [mainRun, hage, hx]

/-- C5 witness: the input `"not a key"` produces exit code 2 with no file
writes. -/
theorem prompt_exits_2_without_key_line_witness :
    mainRun .prompt
      ⟨true, [], none, ⟨0, [], [], 0, [], []⟩, fun _ => ⟨0, [], []⟩, .ok (),
        "not a key".data, []⟩ =
      { exitCode := 2, keysWrite := none, cfgWrite := none,
        errReported := true, keygenInvoked := false } :=
  prompt_exits_2_without_key_line _ rfl (by decide)

/-- C9: secret-key extraction follows the exact order of the source: first
the whole stripped input is returned when it starts with the marker,
otherwise the first stripped line starting with the marker is returned (the
function agrees with the spec-side restatement `extractSpec`); and when no
such line exists for the stripped operator input, the program fails with exit
code 2 and performs no writes. -/
theorem extract_order_and_exit_2 (text : List Char) (e : Env)
    (hage : e.agePresent = true)
    (hnone : extract_secret_key_line (pyStrip e.promptInput) = none) :
    extract_secret_key_line text = extractSpec text ∧
    mainRun .prompt e =
      { exitCode := 2, keysWrite := none, cfgWrite := none,
        errReported := true, keygenInvoked := false } := by
  constructor
  · simp only [extract_secret_key_line, extractSpec, scanLines_eq_find]
  · simp [mainRun, hage, hnone]

/-- C9 witness: the extraction order on a multi-line input whose second line
carries the key, and exit code 2 for an input with no key line. -/
theorem extract_order_and_exit_2_witness :
    extract_secret_key_line "x\n AGE-SECRET-KEY-1Q \ny".data =
      extractSpec "x\n AGE-SECRET-KEY-1Q \ny".data ∧
    mainRun .prompt
      ⟨true, [], none, ⟨0, [], [], 0, [], []⟩, fun _ => ⟨0, [], []⟩, .ok (),
        "nope".data, []⟩ =
      { exitCode := 2, keysWrite := none, cfgWrite := none,
        errReported := true, keygenInvoked := false } :=
  extract_order_and_exit_2 "x\n AGE-SECRET-KEY-1Q \ny".data _ rfl (by decide)

/-- C7: round-trip for a key pair the tool installs from prompted input.
With the external utility modelled as the deterministic function `e.derive`,
if extraction of the operator input yields the secret line `sl` and
derivation yields `pub`, then the block the tool composes and installs stores
exactly `sl` (extraction of the block returns it), records exactly `pub` in
its public-key comment, re-deriving from the stored secret line yields that
same recorded `pub`, and the successful run installs exactly this block. -/
theorem roundtrip_installed_block (e : Env) (sl pub : List Char)
    (hage : e.agePresent = true)
    (hx : extract_secret_key_line (pyStrip e.promptInput) = some sl)
    (hd : derive_public_key_from_secret e.derive e.removeOutcome sl = .ok pub)
    (hnl : ∀ c ∈ sl, (c == '\n') = false)
    (hnlp : ∀ c ∈ pub, (c == '\n') = false)
    (hnlc : ∀ c ∈ e.created, (c == '\n') = false) :
    extract_secret_key_line (compose_block_from_secret e.created sl pub) = some sl ∧
    recordedPublicKey (compose_block_from_secret e.created sl pub) = some pub ∧
    derive_public_key_from_secret e.derive e.removeOutcome sl = .ok pub ∧
    mainRun .prompt e =
      { exitCode := 0,
        keysWrite := (append_key_block e.existingKeys
          (compose_block_from_secret e.created sl pub) sl).newContent,
        cfgWrite := (ensure_sops_config pub e.cfg).1,
        errReported := false, keygenInvoked := true } := by
  obtain ⟨hsl_strip, hsl_start⟩ := extract_some_props hx
  have hs : ∀ c ∈ pyStrip sl, (c == '\n') = false := by
    rw [hsl_strip]
    exact hnl
  have hstart : pyStartsWith (pyStrip sl) secretKeyMarker = true := by
    rw [hsl_strip]
    exact hsl_start
  refine ⟨?_, ?_, hd, ?_⟩
  · rw [extract_compose hnlc hnlp hs hstart, hsl_strip]
  · exact recordedPublicKey_compose hnlc hnlp hs
  · simp [mainRun, hage, hx, hd]

/-- C7 witness: a concrete prompted key install whose block round-trips. -/
theorem roundtrip_installed_block_witness :
    extract_secret_key_line
      (compose_block_from_secret "2025".data "AGE-SECRET-KEY-1W".data "age1pub".data) =
      some "AGE-SECRET-KEY-1W".data ∧
    recordedPublicKey
      (compose_block_from_secret "2025".data "AGE-SECRET-KEY-1W".data "age1pub".data) =
      some "age1pub".data ∧
    derive_public_key_from_secret (fun _ => ⟨0, "age1pub\n".data, []⟩) (.ok ())
      "AGE-SECRET-KEY-1W".data = .ok "age1pub".data ∧
    mainRun .prompt
      ⟨true, [], none, ⟨0, [], [], 0, [], []⟩, fun _ => ⟨0, "age1pub\n".data, []⟩,
        .ok (), "AGE-SECRET-KEY-1W".data, "2025".data⟩ =
      { exitCode := 0,
        keysWrite := (append_key_block []
          (compose_block_from_secret "2025".data "AGE-SECRET-KEY-1W".data
            "age1pub".data) "AGE-SECRET-KEY-1W".data).newContent,
        cfgWrite := (ensure_sops_config "age1pub".data none).1,
        errReported := false, keygenInvoked := true } :=
  roundtrip_installed_block
    ⟨true, [], none, ⟨0, [], [], 0, [], []⟩, fun _ => ⟨0, "age1pub\n".data, []⟩,
      .ok (), "AGE-SECRET-KEY-1W".data, "2025".data⟩
    "AGE-SECRET-KEY-1W".data "age1pub".data rfl (by decide) rfl
    (by decide) (by decide) (by decide)

/-- C3 (amended): for prior key-store content of the shape `p ++ k` trailing
newlines with `k ≤ 2` (and `p` itself not ending in a newline), a
non-duplicate append writes exactly `p` followed by one newline terminating
`p`'s last line, one blank line, and the block; and every block built by
`_compose_block_from_secret` ends with exactly one trailing newline — the
newline terminating its secret-key line — not with a trailing blank line.
(For three or more trailing newlines the extra blank lines are kept; see the
counterexample.) -/
theorem append_separator_amended (p block secret created s pub : List Char)
    (k : Nat) (hk : k ≤ 2)
    (hlast : p.getLast? ≠ some '\n')
    (hne : p ++ List.replicate k '\n' ≠ [])
    (hdup : pyContains (p ++ List.replicate k '\n') secret = false)
    (hs : pyStrip s ≠ []) :
    append_key_block (p ++ List.replicate k '\n') block secret =
      { newContent := some ((p ++ ['\n', '\n']) ++ block), noChangesDiag := false } ∧
    pyEndsWith (compose_block_from_secret created s pub) ['\n'] = true ∧
    pyEndsWith (compose_block_from_secret created s pub) ['\n', '\n'] = false := by
  have hform : compose_block_from_secret created s pub =
      ((createdCommentTag ++ created ++ '\n' :: (pubCommentTag ++ pub ++ ['\n'])) ++
        pyStrip s) ++ ['\n'] := by
    simp [compose_block_from_secret, List.append_assoc]
  have hB1 : pyEndsWith (compose_block_from_secret created s pub) ['\n'] = true := by
    rw [hform]
    exact endsWith_append_self _ _
  have hB2 : pyEndsWith (compose_block_from_secret created s pub) ['\n', '\n'] = false := by
    rw [hform, endsWith_snoc_nl_two]
    obtain ⟨c, cr, hrev, hcw⟩ := strip_rev_head hs
    unfold pyEndsWith
    rw [List.reverse_append, hrev]
    have hcnl : (c == '\n') = false := by
      cases hceq : c == '\n'
      · rfl
      · have hce : c = '\n' := by simpa using hceq
        rw [hce] at hcw
        exact absurd hcw (by decide)
    simp [pyStartsWith, hcnl]
  refine ⟨?_, hB1, hB2⟩
  obtain hk0 | hk1 | hk2 : k = 0 ∨ k = 1 ∨ k = 2 := by omega
  · subst hk0
    rw [show List.replicate 0 '\n' = ([] : List Char) from rfl, List.append_nil]
      at hne hdup ⊢
    have hnl1 : pyEndsWith p ['\n'] = false := endsWith_nl_eq_false hlast
    have hnl2 : pyEndsWith (p ++ ['\n']) ['\n', '\n'] = false := by
      rw [endsWith_snoc_nl_two]
      exact hnl1
    have hpn : (p ++ ['\n']).isEmpty = false :=
      isEmpty_false_of_ne_nil (append_ne_nil_right (by simp))
    simp [append_key_block, isEmpty_false_of_ne_nil hne, hdup, hnl1, hnl2, hpn,
      List.append_assoc]
  · subst hk1
    rw [show List.replicate 1 '\n' = ['\n'] from rfl] at hne hdup ⊢
    have he1 : pyEndsWith (p ++ ['\n']) ['\n'] = true := endsWith_append_self p ['\n']
    have he2 : pyEndsWith (p ++ ['\n']) ['\n', '\n'] = false := by
      rw [endsWith_snoc_nl_two]
      exact endsWith_nl_eq_false hlast
    simp [append_key_block, isEmpty_false_of_ne_nil hne, hdup, he1, he2,
      List.append_assoc]
  · subst hk2
    rw [show List.replicate 2 '\n' = ['\n', '\n'] from rfl] at hne hdup ⊢
    have he1 : pyEndsWith (p ++ ['\n', '\n']) ['\n'] = true := by
      rw [show p ++ ['\n', '\n'] = (p ++ ['\n']) ++ ['\n'] by simp [List.append_assoc]]
      exact endsWith_append_self _ _
    have he2 : pyEndsWith (p ++ ['\n', '\n']) ['\n', '\n'] = true :=
      endsWith_append_self _ _
    simp [append_key_block, isEmpty_false_of_ne_nil hne, hdup, he1, he2]

/-- C3 counterexample: with prior content ending in three newlines, the write
keeps both blank lines (it is not `p` plus exactly one blank line before the
block), and the written file ends with a single newline, not with a trailing
blank line — refuting "exactly one blank line for every trailing whitespace
shape" and "the block ends with a trailing blank line". -/
theorem append_separator_counterexample :
    (append_key_block "x\n\n\n".data
        (compose_block_from_secret "2025".data "AGE-SECRET-KEY-1Q".data "age1p".data)
        "AGE-SECRET-KEY-1Q".data).newContent =
      some ("x\n\n\n".data ++
        compose_block_from_secret "2025".data "AGE-SECRET-KEY-1Q".data "age1p".data) ∧
    ("x\n\n\n".data ++
        compose_block_from_secret "2025".data "AGE-SECRET-KEY-1Q".data "age1p".data) ≠
      (("x".data ++ ['\n', '\n']) ++
        compose_block_from_secret "2025".data "AGE-SECRET-KEY-1Q".data "age1p".data) ∧
    pyEndsWith ("x\n\n\n".data ++
        compose_block_from_secret "2025".data "AGE-SECRET-KEY-1Q".data "age1p".data)
      ['\n', '\n'] = false := by
  decide

/-- C3 witness: one trailing newline yields exactly one separating blank
line, and the composed block ends with exactly one newline. -/
theorem append_separator_amended_witness :
    append_key_block ("x".data ++ List.replicate 1 '\n') "B\n".data "S".data =
      { newContent := some (("x".data ++ ['\n', '\n']) ++ "B\n".data),
        noChangesDiag := false } ∧
    pyEndsWith (compose_block_from_secret "2025".data " AGE-SECRET-KEY-1Q ".data
      "age1p".data) ['\n'] = true ∧
    pyEndsWith (compose_block_from_secret "2025".data " AGE-SECRET-KEY-1Q ".data
      "age1p".data) ['\n', '\n'] = false :=
  append_separator_amended "x".data "B\n".data "S".data "2025".data
    " AGE-SECRET-KEY-1Q ".data "age1p".data 1 (by decide) (by decide) (by decide)
    (by decide) (by decide)
